import Mathlib

/-!
Shallow embedding of the Aihup image-editing client.

Three source files are modelled:
* `services/geminiService.ts` — the edit-request adapter `editImage`;
* `utils/fileUtils.ts` — the file-ingestion adapter `processFile`;
* the unnamed App component — the session sequencer (`handleImageUpload`,
  `handleClear`, `handleSubmit`) and the download helper `getFileExtension`.

JavaScript strings are modelled as Lean `String`; `s.split(sep)` for a
one-character separator is modelled by `jsSplit` below, which reproduces the
JavaScript semantics (`"" ↦ [""]`, separators at the ends produce empty
segments).  Optional / possibly-`undefined` values are modelled with `Option`.
Promise resolution and rejection are modelled with `Except String` carrying the
rejection's message; the asynchronous remote call is modelled by an explicit
`RemoteOutcome` parameter (the response, or a thrown value).
-/

namespace Aihup

/-! ### JavaScript string splitting -/

/-- JavaScript `String.prototype.split` with a one-character separator, on the
underlying character list.  Always returns a non-empty list of segments. -/
def jsSplitList (sep : Char) : List Char → List (List Char)
  | [] => [[]]
  | c :: cs =>
    let rest := jsSplitList sep cs
    if c = sep then [] :: rest
    else
      match rest with
      | [] => [[c]]
      | h :: t => (c :: h) :: t

/-- JavaScript `s.split(sep)` for a one-character separator. -/
def jsSplit (sep : Char) (s : String) : List String :=
  (jsSplitList sep s.data).map String.mk

/-- The text strictly after the first occurrence of `sep`, when `sep` occurs
at all.  This follows the spec's words "the content after its first comma" /
"the text after the '/'". -/
def textAfterFirst (sep : Char) : List Char → Option (List Char)
  | [] => none
  | c :: cs => if c = sep then some cs else textAfterFirst sep cs

/-- The text strictly after the last occurrence of `sep`; the whole string
when `sep` does not occur. -/
def textAfterLast (sep : Char) : List Char → List Char
  | [] => []
  | c :: cs =>
    if cs.contains sep then textAfterLast sep cs
    else if c = sep then cs else c :: cs

/-- Spec-side reading of "the content of the data URL after its first comma"
(the payload of a data URL, header discarded); absent when there is no comma. -/
def afterFirstComma (s : String) : Option String :=
  (textAfterFirst ',' s.data).map String.mk

/-- Spec-side reading of "the mime type's subtype segment (the text after
the '/')"; absent when there is no slash. -/
def subtypeSegment (m : String) : Option String :=
  (textAfterFirst '/' m.data).map String.mk

/-- JavaScript `s.startsWith(pre)`: a character-level prefix test. -/
def jsStartsWith (s pre : String) : Bool :=
  pre.data.isPrefixOf s.data

/-- JavaScript `s.trim()`: strip leading and trailing whitespace. -/
def jsTrim (s : String) : String :=
  String.mk
    (((s.data.dropWhile Char.isWhitespace).reverse.dropWhile
        Char.isWhitespace).reverse)

/-! ### Edit request adapter (`services/geminiService.ts`) -/

/-- Inline image payload carried by a response part; `editImage` reads only
its `data` field. -/
structure InlineData where
  data : String
  deriving DecidableEq

/-- One content part of a response candidate. -/
structure Part where
  inlineData : Option InlineData
  text : Option String
  deriving DecidableEq

/-- Content of a response candidate; `parts` may be absent. -/
structure Content where
  parts : Option (List Part)
  deriving DecidableEq

/-- One safety rating of a candidate.  `blocked` is an optional boolean in the
remote API; JavaScript truthiness identifies an absent flag with `false`, so it
is modelled as a `Bool`. -/
structure SafetyRating where
  blocked : Bool
  deriving DecidableEq

/-- One response candidate; `content` and `safetyRatings` may be absent. -/
structure Candidate where
  content : Option Content
  safetyRatings : Option (List SafetyRating)
  deriving DecidableEq

/-- The remote response; `candidates` may be absent. -/
structure GenerateContentResponse where
  candidates : Option (List Candidate)
  deriving DecidableEq

deriving instance DecidableEq for Except

/-- Outcome of the awaited remote call: a response, a thrown `Error` carrying
a message, or a thrown value that is not an `Error`. -/
inductive RemoteOutcome where
  | success (response : GenerateContentResponse)
  | errorThrown (message : String)
  | nonErrorThrown
  deriving DecidableEq

/-- Message of the error thrown when a safety rating blocked the generation. -/
def safetyBlockedMessage : String :=
  "Image generation was blocked due to safety policies. Please try a different prompt."

/-- Message of the error thrown when the response carries no inline image. -/
def noImageReturnedMessage : String :=
  "No image was generated. The model did not return an image."

/-- Message used by the catch block for a caught value that is not an `Error`. -/
def unknownErrorMessage : String :=
  "An unknown error occurred while generating the image."

/-- The catch block's wrapping of a caught `Error`'s message:
`` `Failed to generate image: ${error.message}` ``. -/
def wrapFailureMessage (m : String) : String :=
  "Failed to generate image: " ++ m

/-- Source: `const candidate = response.candidates?.[0];`. -/
def firstCandidate (r : GenerateContentResponse) : Option Candidate :=
  Option.bind r.candidates List.head?

/-- Source: the optional chain `candidate?.content?.parts`. -/
def candidateParts (c : Option Candidate) : Option (List Part) :=
  Option.bind (Option.bind c Candidate.content) Content.parts

/-- Source: the `for` loop over the parts — return the `data` of the first
part whose `inlineData` is present. -/
def findInlineData : List Part → Option String
  | [] => none
  | p :: ps =>
    match p.inlineData with
    | some d => some d.data
    | none => findInlineData ps

/-- Source: `candidate?.safetyRatings?.some(rating => rating.blocked)`; an
absent chain is falsy. -/
def anyRatingBlocked (c : Option Candidate) : Bool :=
  match Option.bind c Candidate.safetyRatings with
  | some ratings => ratings.any SafetyRating.blocked
  | none => false

/-- The body of `editImage`'s `try` block after the remote call returned a
response: the part scan, then the safety check, then the no-image throw.
`Except.error` carries the thrown `Error`'s message. -/
def parseCandidates (r : GenerateContentResponse) : Except String String :=
  match Option.bind (candidateParts (firstCandidate r)) findInlineData with
  | some d => Except.ok d
  | none =>
    if anyRatingBlocked (firstCandidate r) then Except.error safetyBlockedMessage
    else Except.error noImageReturnedMessage

/-- Observable behaviour of `editImage` as a function of the remote outcome.
The `catch` block surrounds the whole `try` body, so it also catches the
`Error`s thrown by the parsing code itself: every caught `Error` (remote or
internal) is re-thrown with its message wrapped by `wrapFailureMessage`, and a
caught non-`Error` value is replaced by `unknownErrorMessage`. -/
def editImage (outcome : RemoteOutcome) : Except String String :=
  match outcome with
  | .nonErrorThrown => Except.error unknownErrorMessage
  | .errorThrown m => Except.error (wrapFailureMessage m)
  | .success r =>
    match parseCandidates r with
    | Except.ok d => Except.ok d
    | Except.error m => Except.error (wrapFailureMessage m)

/-! ### File ingestion adapter (`utils/fileUtils.ts`) -/

/-- The selected browser file; only its declared media type is read by the
ingestion adapter. -/
structure File where
  type : String
  deriving DecidableEq

/-- Result interface of `processFile`.  `base64` is `dataUrl.split(',')[1]`,
which at runtime is `undefined` when the data URL has no comma, hence
`Option String`. -/
structure ImageDetails where
  url : String
  base64 : Option String
  mimeType : String
  deriving DecidableEq

/-- Outcome of the asynchronous `FileReader.readAsDataURL` read: the produced
data URL, or a reader error surfaced as a message. -/
inductive ReadOutcome where
  | success (dataUrl : String)
  | failure (error : String)
  deriving DecidableEq

/-- Rejection message for a missing or non-image file. -/
def invalidFileTypeMessage : String := "Please select a valid image file."

/-- Observable behaviour of `processFile`: the promise's resolution together
with a flag recording whether the reader was invoked at all.  The type gate
`!file || !file.type.startsWith('image/')` rejects before any read. -/
def processFile (file : Option File) (read : ReadOutcome) :
    Except String ImageDetails × Bool :=
  match file with
  | none => (Except.error invalidFileTypeMessage, false)
  | some f =>
    if jsStartsWith f.type "image/" then
      match read with
      | .success dataUrl =>
        (Except.ok
          { url := dataUrl
            base64 := (jsSplit ',' dataUrl)[1]?
            mimeType := f.type }, true)
      | .failure e => (Except.error e, true)
    else (Except.error invalidFileTypeMessage, false)

/-! ### Session sequencer (the App component) -/

/-- State slice `originalImage`: the ingested details together with the file. -/
structure ImageFileState extends ImageDetails where
  file : File
  deriving DecidableEq

/-- State slice `editedImage`: `{ url, mimeType }`. -/
structure EditedImage where
  url : String
  mimeType : String
  deriving DecidableEq

/-- The App component's state variables. -/
structure AppState where
  originalImage : Option ImageFileState
  editedImage : Option EditedImage
  prompt : String
  isLoading : Bool
  error : Option String
  deriving DecidableEq

/-- The initial state of the component (all `useState` initialisers). -/
def initialState : AppState :=
  { originalImage := none, editedImage := none, prompt := "",
    isLoading := false, error := none }

/-- `handleImageUpload`, with the asynchronous `processFile` resolution made
explicit: clears error and edited image, then stores the asset on success or
surfaces the message (and clears the asset) on failure; loading ends either
way. -/
def handleImageUpload (s : AppState) (file : File) (read : ReadOutcome) :
    AppState :=
  match (processFile (some file) read).1 with
  | Except.ok details =>
    { s with isLoading := false, error := none, editedImage := none,
             originalImage := some { toImageDetails := details, file := file } }
  | Except.error m =>
    { s with isLoading := false, error := some m, editedImage := none,
             originalImage := none }

/-- `handleClear`: resets every state variable. -/
def handleClear (_ : AppState) : AppState := initialState

/-- Arguments of one invocation of `editImage` by the sequencer. -/
structure EditCall where
  base64Data : Option String
  mimeType : String
  prompt : String
  deriving DecidableEq

/-- `handleSubmit`, with the awaited `editImage` resolution made explicit.
Returns the next state together with the `editImage` call record (`none` when
the guard `!originalImage || !prompt.trim() || isLoading` returned early).
On success the edited image is stored with a rebuilt data URL; on failure the
message is surfaced and the edited image (cleared before the attempt) stays
absent. -/
def handleSubmit (s : AppState) (outcome : RemoteOutcome) :
    AppState × Option EditCall :=
  match s.originalImage with
  | none => (s, none)
  | some orig =>
    if jsTrim s.prompt = "" ∨ s.isLoading then (s, none)
    else
      let call : EditCall :=
        { base64Data := orig.base64, mimeType := orig.mimeType,
          prompt := s.prompt }
      match editImage outcome with
      | Except.ok b =>
        ({ s with isLoading := false, error := none,
                  editedImage := some
                    { url := "data:" ++ orig.mimeType ++ ";base64," ++ b,
                      mimeType := orig.mimeType } }, some call)
      | Except.error m =>
        ({ s with isLoading := false, error := some m,
                  editedImage := none }, some call)

/-- `getFileExtension`: last `'/'`-separated segment of the mime type,
defaulting to `"png"` when that segment is empty (`parts[parts.length - 1]
|| 'png'`). -/
def getFileExtension (mimeType : String) : String :=
  let parts := jsSplit '/' mimeType
  let last := parts.getLastD ""
  if last = "" then "png" else last

/-! ### Helper lemmas about the split helpers -/

theorem jsSplitList_ne_nil (sep : Char) (l : List Char) : jsSplitList sep l ≠ [] := by
  cases l with
  | nil => simp [jsSplitList]
  | cons c cs =>
    simp only [jsSplitList]
    split
    · simp
    · split <;> simp

theorem jsSplitList_of_not_mem (sep : Char) (l : List Char) (h : sep ∉ l) :
    jsSplitList sep l = [l] := by
  induction l with
  | nil => rfl
  | cons c cs ih =>
    have hc : ¬ c = sep := fun e => h (by simp [e])
    have hcs : sep ∉ cs := fun m => h (List.mem_cons_of_mem _ m)
    simp only [jsSplitList, if_neg hc, ih hcs]

theorem two_le_length_jsSplitList (sep : Char) (l : List Char) (h : sep ∈ l) :
    2 ≤ (jsSplitList sep l).length := by
  induction l with
  | nil => cases h
  | cons c cs ih =>
    by_cases hc : c = sep
    · simp only [jsSplitList, if_pos hc, List.length_cons]
      have h1 : jsSplitList sep cs ≠ [] := jsSplitList_ne_nil sep cs
      have h2 : 0 < (jsSplitList sep cs).length := List.length_pos.mpr h1
      omega
    · have hcs : sep ∈ cs := by
        cases List.mem_cons.mp h with
        | inl e => exact absurd e.symm hc
        | inr m => exact m
      have h2 := ih hcs
      simp only [jsSplitList, if_neg hc]
      cases hr : jsSplitList sep cs with
      | nil => exact absurd hr (jsSplitList_ne_nil sep cs)
      | cons a t =>
        rw [hr] at h2
        simpa using h2

theorem head?_jsSplitList (sep : Char) (l : List Char) :
    (jsSplitList sep l).head? = some (l.takeWhile (fun c => c != sep)) := by
  induction l with
  | nil => rfl
  | cons c cs ih =>
    by_cases hc : c = sep
    · simp [jsSplitList, hc, List.takeWhile_cons]
    · simp only [jsSplitList, if_neg hc]
      cases hr : jsSplitList sep cs with
      | nil => exact absurd hr (jsSplitList_ne_nil sep cs)
      | cons a t =>
        rw [hr] at ih
        simp only [List.head?, Option.some.injEq] at ih
        simp [List.takeWhile_cons, hc, ih]

theorem getElem?_one_jsSplitList (sep : Char) (l : List Char) :
    (jsSplitList sep l)[1]? =
      (textAfterFirst sep l).map (fun t => t.takeWhile (fun c => c != sep)) := by
  induction l with
  | nil => rfl
  | cons c cs ih =>
    by_cases hc : c = sep
    · simp only [jsSplitList, if_pos hc, textAfterFirst, if_pos hc,
        List.getElem?_cons_succ, Option.map_some]
      rw [← List.head?_eq_getElem?]
      exact head?_jsSplitList sep cs
    · simp only [jsSplitList, if_neg hc, textAfterFirst, if_neg hc]
      cases hr : jsSplitList sep cs with
      | nil => exact absurd hr (jsSplitList_ne_nil sep cs)
      | cons a t =>
        rw [hr] at ih
        simpa using ih

theorem getLastD_congr {α : Type} {l : List α} (h : l ≠ []) (d₁ d₂ : α) :
    l.getLastD d₁ = l.getLastD d₂ := by
  cases l with
  | nil => exact absurd rfl h
  | cons a t => rw [List.getLastD_cons, List.getLastD_cons]

theorem getLastD_jsSplitList (sep : Char) (l : List Char) :
    (jsSplitList sep l).getLastD [] = textAfterLast sep l := by
  induction l with
  | nil => rfl
  | cons c cs ih =>
    by_cases hm : cs.contains sep
    · have hmem : sep ∈ cs := by simpa using hm
      by_cases hc : c = sep
      · simp only [jsSplitList, if_pos hc, textAfterLast, hm, if_pos,
          List.getLastD_cons]
        exact ih
      · have h2 := two_le_length_jsSplitList sep cs hmem
        cases hr : jsSplitList sep cs with
        | nil => exact absurd hr (jsSplitList_ne_nil sep cs)
        | cons a t =>
          have ht : t ≠ [] := by
            rw [hr] at h2
            cases t with
            | nil => simp at h2
            | cons x y => simp
          simp only [jsSplitList, if_neg hc, hr, textAfterLast, hm, if_pos]
          rw [List.getLastD_cons, getLastD_congr ht (c :: a) []]
          rw [hr] at ih
          rw [List.getLastD_cons, getLastD_congr ht a []] at ih
          exact ih
    · have hmem : sep ∉ cs := by simpa using hm
      have hl : jsSplitList sep cs = [cs] := jsSplitList_of_not_mem sep cs hmem
      by_cases hc : c = sep
      · simp [jsSplitList, hc, hl, textAfterLast, hm, hmem]
      · simp [jsSplitList, hc, hl, textAfterLast, hm, hmem]

/-! ### Helper lemmas about the part scan -/

theorem findInlineData_eq_none {ps : List Part}
    (h : ∀ p ∈ ps, p.inlineData = none) : findInlineData ps = none := by
  induction ps with
  | nil => rfl
  | cons p t ih =>
    have hp := h p (List.mem_cons_self p t)
    simp only [findInlineData, hp]
    exact ih fun q hq => h q (List.mem_cons_of_mem _ hq)

theorem findInlineData_eq_of_first {ps : List Part} {i : Nat} {p : Part}
    {d : InlineData}
    (hall : (ps.take i).all (fun q => q.inlineData.isNone) = true)
    (hi : ps[i]? = some p) (hd : p.inlineData = some d) :
    findInlineData ps = some d.data := by
  induction ps generalizing i with
  | nil => simp at hi
  | cons q t ih =>
    cases i with
    | zero =>
      simp only [List.getElem?_cons_zero, Option.some.injEq] at hi
      subst hi
      simp [findInlineData, hd]
    | succ n =>
      rw [List.take_succ_cons, List.all_cons] at hall
      have hsplit : q.inlineData.isNone = true ∧
          (t.take n).all (fun q => q.inlineData.isNone) = true := by
        simpa using hall
      have h0 : q.inlineData = none := Option.isNone_iff_eq_none.mp hsplit.1
      rw [List.getElem?_cons_succ] at hi
      simp only [findInlineData, h0]
      exact ih hsplit.2 hi

/-! ### Claim C1 — messages on the no-inline-data paths -/

/-- Concrete response whose first candidate carries no content parts and one
blocked safety rating. -/
def respBlocked : GenerateContentResponse :=
  { candidates := some
      [{ content := none, safetyRatings := some [{ blocked := true }] }] }

/-- Concrete response whose first candidate carries neither content nor
safety ratings. -/
def respClean : GenerateContentResponse :=
  { candidates := some [{ content := none, safetyRatings := none }] }

/-- C1, counterexample: on a response with no inline image data and a blocked
safety rating, `editImage` does not reject with the bare safety message — the
throw happens inside the `try`, so the catch block wraps it with
"Failed to generate image: ". -/
theorem editImage_safety_message_cex :
    editImage (.success respBlocked) =
      Except.error (wrapFailureMessage safetyBlockedMessage) ∧
    editImage (.success respBlocked) ≠ Except.error safetyBlockedMessage ∧
    wrapFailureMessage safetyBlockedMessage ≠ safetyBlockedMessage := by
  have hne : wrapFailureMessage safetyBlockedMessage ≠ safetyBlockedMessage := by
    decide
  refine ⟨rfl, ?_, hne⟩
  intro h
  have h2 : Except.error (α := String) (wrapFailureMessage safetyBlockedMessage) =
      Except.error safetyBlockedMessage := h
  injection h2 with h3
  exact hne h3

/-- C1 (amended): for every response in which no content part of the first
candidate carries inline image data, `editImage` rejects with the safety
message wrapped by the catch block's "Failed to generate image: " prefix when
at least one safety rating is blocked, and with the equally wrapped no-image
message when no rating is blocked. -/
theorem editImage_noInline_messages (r : GenerateContentResponse)
    (hparts : ∀ ps, candidateParts (firstCandidate r) = some ps →
      ∀ p ∈ ps, p.inlineData = none) :
    ((∃ rs, Option.bind (firstCandidate r) Candidate.safetyRatings = some rs ∧
        ∃ rat ∈ rs, rat.blocked = true) →
      editImage (.success r) =
        Except.error (wrapFailureMessage safetyBlockedMessage)) ∧
    ((∀ rs, Option.bind (firstCandidate r) Candidate.safetyRatings = some rs →
        ∀ rat ∈ rs, rat.blocked = false) →
      editImage (.success r) =
        Except.error (wrapFailureMessage noImageReturnedMessage)) := by
  have hnone :
      Option.bind (candidateParts (firstCandidate r)) findInlineData = none := by
    cases hcp : candidateParts (firstCandidate r) with
    | none => rfl
    | some ps => simpa using findInlineData_eq_none (hparts ps hcp)
  constructor
  · rintro ⟨rs, hrs, rat, hmem, hblocked⟩
    have hb : anyRatingBlocked (firstCandidate r) = true := by
      simp only [anyRatingBlocked, hrs, List.any_eq_true]
      exact ⟨rat, hmem, hblocked⟩
    simp [editImage, parseCandidates, hnone, hb]
  · intro hall
    have hb : anyRatingBlocked (firstCandidate r) = false := by
      cases hrs : Option.bind (firstCandidate r) Candidate.safetyRatings with
      | none => simp [anyRatingBlocked, hrs]
      | some rs =>
        simp only [anyRatingBlocked, hrs, List.any_eq_false]
        intro rat hmem
        simp [hall rs hrs rat hmem]
    simp [editImage, parseCandidates, hnone, hb]

/-- C1 witness: both branches of the amended statement at concrete inputs. -/
theorem editImage_noInline_messages_witness :
    editImage (.success respBlocked) =
      Except.error (wrapFailureMessage safetyBlockedMessage) ∧
    editImage (.success respClean) =
      Except.error (wrapFailureMessage noImageReturnedMessage) := by
  constructor
  · exact (editImage_noInline_messages respBlocked (fun ps hps => by
      simp [candidateParts, firstCandidate, respBlocked] at hps)).1
      ⟨[{ blocked := true }], rfl, { blocked := true }, by simp, rfl⟩
  · exact (editImage_noInline_messages respClean (fun ps hps => by
      simp [candidateParts, firstCandidate, respClean] at hps)).2
      (fun rs hrs => by simp [firstCandidate, respClean] at hrs)

/-! ### Claim C2 — the first inline part wins -/

/-- C2: for every response whose first candidate's parts contain an inline
image payload at position `i`, with every earlier part carrying none,
`editImage` resolves with that payload's `data` — whatever the other parts
(before position `i` without inline data, after it arbitrary) contain. -/
theorem editImage_first_inline (r : GenerateContentResponse) (ps : List Part)
    (hps : candidateParts (firstCandidate r) = some ps)
    (i : Nat) (p : Part) (d : InlineData)
    (hall : (ps.take i).all (fun q => q.inlineData.isNone) = true)
    (hi : ps[i]? = some p) (hd : p.inlineData = some d) :
    editImage (.success r) = Except.ok d.data := by
  have hf := findInlineData_eq_of_first hall hi hd
  simp [editImage, parseCandidates, hps, hf]

/-- Parts of the fixed mocked response: inline image data only in part 2
of 3. -/
def partsTwoOfThree : List Part :=
  [{ inlineData := none, text := some "first text" },
   { inlineData := some { data := "IMG" }, text := none },
   { inlineData := some { data := "OTHER" }, text := some "third" }]

/-- Concrete response carrying `partsTwoOfThree` in its first candidate. -/
def respParts : GenerateContentResponse :=
  { candidates := some
      [{ content := some { parts := some partsTwoOfThree },
         safetyRatings := none }] }

/-- C2 witness: the fixed 3-part response returns part 2's data. -/
theorem editImage_first_inline_witness :
    editImage (.success respParts) = Except.ok "IMG" :=
  editImage_first_inline respParts partsTwoOfThree
    (by decide) 1
    { inlineData := some { data := "IMG" }, text := none } { data := "IMG" }
    (by decide) (by decide) rfl

/-! ### Claim C3 — failure taxonomy of the catch block -/

/-- C3: a remote throw of an `Error` with message `m` rejects with exactly
"Failed to generate image: " followed by `m` (in particular "timeout" yields
"Failed to generate image: timeout"); a caught non-`Error` rejects with
exactly the unknown-error message; and every exit of `editImage` is a
resolution, a wrapped failure message, or the unknown-error message — no
other failure shape escapes. -/
theorem editImage_failure_taxonomy :
    (∀ m, editImage (.errorThrown m) = Except.error (wrapFailureMessage m)) ∧
    editImage (.errorThrown "timeout") =
      Except.error "Failed to generate image: timeout" ∧
    editImage .nonErrorThrown = Except.error unknownErrorMessage ∧
    (∀ o, (∃ d, editImage o = Except.ok d) ∨
      (∃ m, editImage o = Except.error (wrapFailureMessage m)) ∨
      editImage o = Except.error unknownErrorMessage) := by
  refine ⟨fun m => rfl, rfl, rfl, fun o => ?_⟩
  cases o with
  | nonErrorThrown => right; right; rfl
  | errorThrown m => right; left; exact ⟨m, rfl⟩
  | success r =>
    cases hp : parseCandidates r with
    | ok d => left; exact ⟨d, by simp [editImage, hp]⟩
    | error m => right; left; exact ⟨m, by simp [editImage, hp]⟩

/-! ### Claim C10 — totality over degenerate response shapes -/

/-- C10: every access in the response walk is `Option`-guarded, so `editImage`
is a total function of the response; a degenerate response — no candidates, an
empty candidate list, a first candidate without content or parts — with no
safety-rating list falls through to the no-image failure path. -/
theorem editImage_degenerate_total (r : GenerateContentResponse)
    (hparts : candidateParts (firstCandidate r) = none)
    (hratings : Option.bind (firstCandidate r) Candidate.safetyRatings = none) :
    editImage (.success r) =
      Except.error (wrapFailureMessage noImageReturnedMessage) := by
  have hb : anyRatingBlocked (firstCandidate r) = false := by
    simp [anyRatingBlocked, hratings]
  simp [editImage, parseCandidates, hparts, hb]

/-- C10 witness: the candidate-free response reaches the no-image path. -/
theorem editImage_degenerate_total_witness :
    editImage (.success { candidates := none }) =
      Except.error (wrapFailureMessage noImageReturnedMessage) :=
  editImage_degenerate_total { candidates := none } rfl rfl

/-! ### Claim C4 — non-image files are rejected before any read -/

/-- C4: for every file whose declared media type does not begin with
"image/", `processFile` rejects with exactly the invalid-file message and —
whatever the reader would have produced — performs no read (the flag is
`false` and the result does not depend on `read`). -/
theorem processFile_invalid_type (f : File) (read : ReadOutcome)
    (h : jsStartsWith f.type "image/" = false) :
    processFile (some f) read = (Except.error invalidFileTypeMessage, false) := by
  simp [processFile, h]

/-- C4 witness: a plain-text file is rejected without a read. -/
theorem processFile_invalid_type_witness :
    processFile (some { type := "text/plain" }) (.success "data:text/plain,x") =
      (Except.error invalidFileTypeMessage, false) :=
  processFile_invalid_type { type := "text/plain" } (.success "data:text/plain,x")
    (by decide)

/-! ### Claim C5 — the shape of a successful ingestion -/

/-- Amended payload reading: the content of the data URL after its first
comma, truncated before the next comma (the second comma-separated field);
absent when the data URL has no comma. -/
def payloadBetweenCommas (d : String) : Option String :=
  (afterFirstComma d).map
    (fun s => String.mk (s.data.takeWhile (fun c => c != ',')))

/-- C5, counterexample: on a data URL containing a second comma, the stored
payload is `split(',')[1]` — the text between the first and second comma —
not the whole content after the first comma. -/
theorem processFile_payload_cex :
    (processFile (some { type := "image/png" })
        (.success "data:image/png;base64,AA,BB")).1 =
      Except.ok { url := "data:image/png;base64,AA,BB", base64 := some "AA",
                  mimeType := "image/png" } ∧
    afterFirstComma "data:image/png;base64,AA,BB" = some "AA,BB" ∧
    (some "AA" : Option String) ≠ some "AA,BB" := by
  refine ⟨by decide, by decide, by decide⟩

/-- C5 (amended): every successful read of a type-checked file resolves with
an `ImageAsset` whose `url` is exactly the produced data URL, whose payload is
the second comma-separated field of that data URL (equal to the content after
the first comma whenever the data URL contains at most one comma), and whose
`mimeType` is the file's declared type. -/
theorem processFile_success (f : File) (d : String)
    (h : jsStartsWith f.type "image/" = true) :
    processFile (some f) (.success d) =
      (Except.ok { url := d, base64 := payloadBetweenCommas d,
                   mimeType := f.type }, true) := by
  have hsplit : (jsSplit ',' d)[1]? = payloadBetweenCommas d := by
    unfold jsSplit payloadBetweenCommas afterFirstComma
    rw [List.getElem?_map, getElem?_one_jsSplitList]
    cases textAfterFirst ',' d.data <;> rfl
  simp [processFile, h, hsplit]

/-- C5 witness: a one-comma data URL splits into header and payload. -/
theorem processFile_success_witness :
    processFile (some { type := "image/png" })
        (.success "data:image/png;base64,QUJD") =
      (Except.ok { url := "data:image/png;base64,QUJD", base64 := some "QUJD",
                   mimeType := "image/png" }, true) :=
  (processFile_success { type := "image/png" } "data:image/png;base64,QUJD"
    (by decide)).trans (by decide)

/-! ### Claim C9 — the download extension -/

/-- Amended extension reading: the text after the last '/' of the mime type
(the whole string when there is no '/'), defaulting to "png" when that text
is empty. -/
def extensionAfterLastSlash (m : String) : String :=
  let seg := String.mk (textAfterLast '/' m.data)
  if seg = "" then "png" else seg

/-- C9, counterexample: for the reachable `EditResult` mime type "image/a/b"
the computed extension is the segment after the *last* slash, not the subtype
segment (the text after the slash). -/
theorem getFileExtension_cex :
    getFileExtension "image/a/b" = "b" ∧
    subtypeSegment "image/a/b" = some "a/b" ∧
    ("b" : String) ≠ "a/b" ∧
    jsStartsWith "image/a/b" "image/" = true := by
  refine ⟨by decide, by decide, by decide, by decide⟩

/-- C9 (amended): for every mime-type string, the download extension equals
the text after the last '/' (the whole string when no '/' occurs), and equals
"png" exactly when that text is empty. -/
theorem getFileExtension_eq_afterLastSlash (m : String) :
    getFileExtension m = extensionAfterLastSlash m := by
  have h1 : (jsSplit '/' m).getLastD "" = String.mk (textAfterLast '/' m.data) := by
    have h2 := List.getLastD_map String.mk (jsSplitList '/' m.data) []
    rw [← getLastD_jsSplitList]
    exact h2
  simp only [getFileExtension, extensionAfterLastSlash, h1]

/-! ### Claims C6, C7, C8 — the session sequencer -/

/-- Concrete ingested asset used by the sequencer witnesses. -/
def asset0 : ImageFileState :=
  { url := "data:image/png;base64,Q0FU", base64 := some "Q0FU",
    mimeType := "image/png", file := { type := "image/png" } }

/-- Parts of a successful mocked response returning base64 "AAAA". -/
def partsAAAA : List Part :=
  [{ inlineData := some { data := "AAAA" }, text := none }]

/-- Successful mocked response returning base64 "AAAA". -/
def respOkAAAA : GenerateContentResponse :=
  { candidates := some
      [{ content := some { parts := some partsAAAA },
         safetyRatings := none }] }

/-- State after uploading `photo.png` and typing "add sunglasses". -/
def submitState : AppState :=
  { originalImage := some asset0, editedImage := none,
    prompt := "add sunglasses", isLoading := false, error := none }

/-- C6: when a submitted edit request resolves — asset present, non-blank
prompt, no request in flight — a success with payload `b` moves the state to
has-edited: the stored `url` is exactly `"data:" ++ mimeType ++ ";base64,"
++ b` with the mime type copied from the originating asset, the asset kept;
a failure returns the state to has-original: the message surfaced, the asset
unchanged, and the edited image (cleared before the attempt) not restored. -/
theorem handleSubmit_resolution (s : AppState) (orig : ImageFileState)
    (h1 : s.originalImage = some orig) (h2 : jsTrim s.prompt ≠ "")
    (h3 : s.isLoading = false) :
    (∀ o b, editImage o = Except.ok b →
      (handleSubmit s o).1 =
        { s with isLoading := false, error := none,
                 editedImage := some
                   { url := "data:" ++ orig.mimeType ++ ";base64," ++ b,
                     mimeType := orig.mimeType } }) ∧
    (∀ o m, editImage o = Except.error m →
      (handleSubmit s o).1 =
        { s with isLoading := false, error := some m,
                 editedImage := none }) := by
  constructor
  · intro o b hb
    simp [handleSubmit, h1, h2, h3, hb]
  · intro o m hm
    simp [handleSubmit, h1, h2, h3, hm]

/-- C6 witness: mocked success "AAAA" yields displayUrl
"data:image/png;base64,AAAA"; a failing resolution surfaces the message and
keeps the asset with no edited image. -/
theorem handleSubmit_resolution_witness :
    (handleSubmit submitState (.success respOkAAAA)).1 =
      { originalImage := some asset0,
        editedImage := some { url := "data:image/png;base64,AAAA",
                              mimeType := "image/png" },
        prompt := "add sunglasses", isLoading := false, error := none } ∧
    (handleSubmit submitState .nonErrorThrown).1 =
      { originalImage := some asset0, editedImage := none,
        prompt := "add sunglasses", isLoading := false,
        error := some unknownErrorMessage } := by
  constructor
  · exact ((handleSubmit_resolution submitState asset0 rfl (by decide) rfl).1
      (.success respOkAAAA) "AAAA" (by decide)).trans (by decide)
  · exact ((handleSubmit_resolution submitState asset0 rfl (by decide) rfl).2
      .nonErrorThrown unknownErrorMessage (by decide)).trans (by decide)

/-- The C7 invariant: an edited image may only be present while an original
image is present (at most one of each is held, by the shape of `AppState`). -/
def StateInvariant (s : AppState) : Prop :=
  s.editedImage.isSome = true → s.originalImage.isSome = true

/-- C7: the sequencer's operations — upload resolution, submit resolution,
clear — preserve the invariant that an edited image exists only while an
original image is present, and clearing from any state resets asset, result,
prompt and error to the full initial state. -/
theorem sequencer_invariant (s : AppState) (hs : StateInvariant s) :
    (∀ f read, StateInvariant (handleImageUpload s f read)) ∧
    (∀ o, StateInvariant (handleSubmit s o).1) ∧
    handleClear s = initialState := by
  refine ⟨?_, ?_, rfl⟩
  · intro f read
    unfold handleImageUpload
    cases (processFile (some f) read).1 with
    | ok details => simp [StateInvariant]
    | error m => simp [StateInvariant]
  · intro o
    cases ho : s.originalImage with
    | none => simp only [handleSubmit, ho]; exact hs
    | some orig =>
      simp only [handleSubmit, ho]
      split
      · exact hs
      · cases he : editImage o with
        | ok b => simp only [he]; simp [StateInvariant, ho]
        | error m => simp only [he]; simp [StateInvariant]

/-- C7 witness: clearing the initial state is the initial state. -/
theorem sequencer_invariant_witness :
    handleClear initialState = initialState :=
  (sequencer_invariant initialState
    (fun h => by simp [initialState] at h)).2.2

/-- State with a non-blank prompt that carries surrounding whitespace. -/
def promptPadState : AppState :=
  { originalImage := some asset0, editedImage := none, prompt := " hi ",
    isLoading := false, error := none }

/-- C8, counterexample: the sequencer does not trim the prompt it passes to
`editImage`; with prompt " hi " the guard passes (its trim "hi" is
non-empty), yet the call receives " hi " itself, which is not trimmed. -/
theorem handleSubmit_prompt_cex :
    (handleSubmit promptPadState .nonErrorThrown).2 =
      some { base64Data := some "Q0FU", mimeType := "image/png",
             prompt := " hi " } ∧
    jsTrim " hi " = "hi" ∧
    (" hi " : String) ≠ "hi" := by
  refine ⟨by decide, by decide, by decide⟩

/-- C8 (amended): whenever the submit action invokes `editImage`, an asset is
present, no other request is in flight (the in-flight flag is down), and the
prompt argument is the caller's current prompt, whose trimmed form is
non-empty — the prompt itself is passed untrimmed and may carry surrounding
whitespace. -/
theorem handleSubmit_call_guard (s : AppState) (o : RemoteOutcome)
    (call : EditCall) (h : (handleSubmit s o).2 = some call) :
    s.originalImage.isSome = true ∧ s.isLoading = false ∧
    call.prompt = s.prompt ∧ jsTrim call.prompt ≠ "" := by
  unfold handleSubmit at h
  split at h
  · simp at h
  · rename_i orig ho
    split at h
    · simp at h
    · rename_i hg
      obtain ⟨hp, hl⟩ := not_or.mp hg
      have hl2 : s.isLoading = false := by simpa using hl
      have hcall : call.prompt = s.prompt := by
        cases he : editImage o <;> simp only [he] at h <;>
          (injection h with h2; rw [← h2])
      exact ⟨by simp [ho], hl2, hcall, by rw [hcall]; exact hp⟩

/-- State with the already-trimmed prompt "hi". -/
def promptOkState : AppState :=
  { originalImage := some asset0, editedImage := none, prompt := "hi",
    isLoading := false, error := none }

/-- The call record emitted by submitting `promptOkState`. -/
def callHi : EditCall :=
  { base64Data := some "Q0FU", mimeType := "image/png", prompt := "hi" }

/-- C8 witness: a concrete emitted call satisfies the amended guard. -/
theorem handleSubmit_call_guard_witness :
    promptOkState.originalImage.isSome = true ∧
    promptOkState.isLoading = false ∧
    callHi.prompt = promptOkState.prompt ∧
    jsTrim callHi.prompt ≠ "" :=
  handleSubmit_call_guard promptOkState .nonErrorThrown callHi (by decide)

end Aihup
